import Mathlib

/-!
Verification of the transactional data-access layer in
`src/platform/index.ts`: the upsert primitives (`_getOrInsertId`,
`_updateOrInsert`), the transaction wrappers (`wrapInTransaction`,
`runInTransaction`), the per-request affected-ids memoization
(`getCurrentRequestAffectedIds`) and the cascading-delete pre-run hook
(`addDeleteHookForDependents`).

JavaScript objects are modelled as association lists of fields holding
`Value`s (numbers, strings, nested objects).  The external resource store
(PineJS `get/post/patch/delete`) and the database-transaction substrate are
modelled from the specified collaborator boundary as an in-memory store and
explicit state passing; the logic of the four source functions is translated
directly from the source.  Object mutation (lodash `_.merge` mutates its
first argument in place) is made observable through a small object heap, so
that the clone-before-merge step of `_updateOrInsert` can be checked to
leave the caller's filter object untouched.
-/

set_option maxHeartbeats 1000000

/-- A JSON-ish value: JavaScript numbers, strings and nested plain objects,
as they appear in filters, bodies and update fields. -/
inductive Value where
  | num (n : Int)
  | str (s : String)
  | obj (fields : List (String × Value))
deriving Repr

/-- A plain JavaScript object (`AnyObject` in the source): an ordered list of
named fields. -/
abbrev Obj := List (String × Value)

/-- Look a field up by name (first binding wins, as in a JS object where keys
are unique). -/
def lookupField : Obj → String → Option Value
  | [], _ => none
  | (k', v') :: rest, k => if k' = k then some v' else lookupField rest k

/-- Whether the object has a field of the given name. -/
def hasField (o : Obj) (k : String) : Bool := (lookupField o k).isSome

/-- Set a field: overwrite an existing binding in place, else append at the
end (JS property assignment order). -/
def setField : Obj → String → Value → Obj
  | [], k, v => [(k, v)]
  | (k', v') :: rest, k, v =>
      if k' = k then (k, v) :: rest else (k', v') :: setField rest k v

/-- Whether a value is a plain object. -/
def Value.isObj : Value → Bool
  | Value.obj _ => true
  | _ => false

mutual
/-- Structural equality of values (used for filter matching). -/
def valueBEq : Value → Value → Bool
  | Value.num a, Value.num b => a == b
  | Value.str a, Value.str b => a == b
  | Value.obj a, Value.obj b => fieldsBEq a b
  | _, _ => false
/-- Structural equality of field lists. -/
def fieldsBEq : Obj → Obj → Bool
  | [], [] => true
  | (k, v) :: r, (k', v') :: r' => k == k' && valueBEq v v' && fieldsBEq r r'
  | _, _ => false
end

instance : BEq Value := ⟨valueBEq⟩

/-- Whether no key occurs twice in the field list (true of any field list
that denotes an actual JS object). -/
def noDupKeys : Obj → Bool
  | [] => true
  | (k, _) :: rest => (!(rest.any (fun p => p.1 == k))) && noDupKeys rest

mutual
/-- lodash `_.cloneDeep` on a value: a recursive copy. -/
def cloneDeepVal : Value → Value
  | Value.num n => Value.num n
  | Value.str s => Value.str s
  | Value.obj fs => Value.obj (cloneDeepFields fs)
/-- lodash `_.cloneDeep` on an object's fields. -/
def cloneDeepFields : Obj → Obj
  | [] => []
  | (k, v) :: rest => (k, cloneDeepVal v) :: cloneDeepFields rest
end

mutual
/-- lodash `_.merge` of a source value into a destination value: plain
objects are merged recursively, any other source value overwrites the
destination. -/
def mergeVal : Value → Value → Value
  | Value.obj d, Value.obj s => Value.obj (mergeFields d s)
  | _, s => s
/-- lodash `_.merge` of source fields into destination fields, processing
the source fields left to right. -/
def mergeFields : Obj → Obj → Obj
  | d, [] => d
  | d, (k, sv) :: rest =>
      mergeFields
        (match lookupField d k with
         | some dv => setField d k (mergeVal dv sv)
         | none => setField d k sv) rest
end

/-- lodash `_.assign` of source fields into destination fields: a shallow
copy of each source field, later fields winning. -/
def assignFields (d b : Obj) : Obj := b.foldl (fun acc kv => setField acc kv.1 kv.2) d

mutual
/-- `JSON.stringify` of a value. -/
def jsonOfValue : Value → String
  | Value.num n => toString n
  | Value.str s => "\"" ++ s ++ "\""
  | Value.obj fs => "\x7b" ++ jsonOfFields fs ++ "\x7d"
/-- `JSON.stringify` of an object's fields, comma-separated. -/
def jsonOfFields : Obj → String
  | [] => ""
  | [(k, v)] => "\"" ++ k ++ "\":" ++ jsonOfValue v
  | (k, v) :: rest => "\"" ++ k ++ "\":" ++ jsonOfValue v ++ "," ++ jsonOfFields rest
end

/-- `JSON.stringify` of a whole object. -/
def jsonOfObj (o : Obj) : String := "\x7b" ++ jsonOfFields o ++ "\x7d"

/-- The error message thrown by `_updateOrInsert` when the filter matches
more than one row, exactly as interpolated in the source. -/
def nonUniqueMsg (resource : String) (filter : Obj) : String :=
  "updateOrInsert filter not unique for '" ++ resource ++ "': '" ++ jsonOfObj filter ++ "'"

/-- Modelled from the spec: a record of the external resource store, "a
mapping from field name to value, always containing a unique id". -/
structure Row where
  id : Nat
  fields : Obj
deriving Repr

/-- Modelled from the spec: the external resource store behind the
ResourceAccessor boundary — a list of records plus the next generated id.
One store stands for one resource's rows (the resource name only selects the
store, so it is kept outside). -/
structure Store where
  rows : List Row
  nextId : Nat
deriving Repr

/-- Modelled from the spec: a filter object matches a record when every
filter field equals the record's field of that name. -/
def rowMatches (filter : Obj) (r : Row) : Bool :=
  filter.all (fun kv => lookupField r.fields kv.1 == some kv.2)

/-- Modelled from the spec: `get` with `$select: 'id'` — the ids of the
matching rows, in store order. -/
def getIds (s : Store) (filter : Obj) : List Nat :=
  (s.rows.filter (rowMatches filter)).map Row.id

/-- Modelled from the spec: `get` with `$select: 'id'` returning the result
records themselves (each carrying just its `id` field). -/
def getIdObjs (s : Store) (filter : Obj) : List Obj :=
  (s.rows.filter (rowMatches filter)).map (fun r => [("id", Value.num r.id)])

/-- Modelled from the spec: `post` with `returnResource: false` — append a
new row under a fresh generated id and return that id. -/
def Store.post (s : Store) (body : Obj) : Store × Nat :=
  ({ rows := s.rows ++ [{ id := s.nextId, fields := body }], nextId := s.nextId + 1 },
   s.nextId)

/-- Modelled from the spec: `patch` by id — set the body's fields on the row
(or rows) carrying that id, leaving every other row unchanged. -/
def Store.patchRow (s : Store) (pid : Nat) (body : Obj) : Store :=
  { s with
    rows := s.rows.map (fun r =>
      if r.id = pid then { r with fields := assignFields r.fields body } else r) }

/-- A heap of JS objects, making object identity and in-place mutation
observable: an address is an index, allocation appends. -/
structure ObjHeap where
  objs : List Obj
deriving Repr

/-- Read the object at an address (unallocated addresses read as empty). -/
def ObjHeap.get (h : ObjHeap) (a : Nat) : Obj := h.objs.getD a []

/-- Allocate a fresh object, returning its address. -/
def ObjHeap.alloc (h : ObjHeap) (o : Obj) : ObjHeap × Nat :=
  (⟨h.objs ++ [o]⟩, h.objs.length)

/-- Overwrite the object at an address (in-place mutation). -/
def ObjHeap.setObj (h : ObjHeap) (a : Nat) (o : Obj) : ObjHeap := ⟨h.objs.set a o⟩

/-- A write operation issued against the store: one `post` or one `patch`. -/
inductive WriteOp where
  | post (body : Obj)
  | patch (id : Nat) (body : Obj)
deriving Repr

/-- Translated from `_getOrInsertId`: query the resource filtered by
equality on all fields of `body` with `$select: 'id'`; on zero matches post
`body` and return `_.assign(\x7b\x7d, idObj, body)`; otherwise return the first
result.  The returned trace records the writes performed. -/
def _getOrInsertId (s : Store) (body : Obj) : Obj × Store × List WriteOp :=
  match getIdObjs s body with
  | [] =>
      let posted := s.post body
      let idObj : Obj := [("id", Value.num posted.2)]
      (assignFields (assignFields [] idObj) body, posted.1, [WriteOp.post body])
  | r :: _ => (r, s, [])

/-- Translated from `_updateOrInsert`: query by `filter` selecting `id`
only.  Zero matches: `body = _.cloneDeep(filter)` (a fresh heap object),
`_.merge(body, updateFields)` (mutating that fresh object), then post it.
Exactly one match: patch that id with `updateFields` and return it.  More
than one match: throw the non-unique-filter error.  The caller's filter is
the heap object at `filterAddr`; the trace records the writes performed. -/
def _updateOrInsert (s : Store) (h : ObjHeap) (resource : String) (filterAddr : Nat)
    (updateFields : Obj) : Except String Nat × Store × ObjHeap × List WriteOp :=
  let filter := h.get filterAddr
  match getIds s filter with
  | [] =>
      let alloc := h.alloc (cloneDeepFields filter)
      let h' := alloc.1.setObj alloc.2 (mergeFields (alloc.1.get alloc.2) updateFields)
      let body := h'.get alloc.2
      let posted := s.post body
      (Except.ok posted.2, posted.1, h', [WriteOp.post body])
  | [theId] =>
      (Except.ok theId, s.patchRow theId updateFields, h, [WriteOp.patch theId updateFields])
  | _ =>
      (Except.error (nonUniqueMsg resource filter), s, h, [])

/-- Modelled from the spec: the database-transaction substrate behind
`db.transaction` — open a transaction, run the operation with it; if the
operation resolves, commit (the final state is the operation's) and return
its result; if it rejects, roll back (the final state is the initial one)
and propagate the error unchanged.  The transaction handle is the threaded
state. -/
def dbTransaction {σ α ε : Type} (init : σ) (op : σ → Except ε (α × σ)) :
    Except ε α × σ :=
  match op init with
  | Except.ok r => (Except.ok r.1, r.2)
  | Except.error e => (Except.error e, init)

/-- Translated from `wrapInTransaction`: wrap an operation taking the
transaction as first argument into one run inside `db.transaction`. -/
def wrapInTransaction {σ α β ε : Type} (fn : σ → α → Except ε (β × σ)) :
    σ → α → Except ε β × σ :=
  fun dbState args => dbTransaction dbState (fun tx => fn tx args)

/-- Translated from `runInTransaction`: wrap the operation and call the
wrapped function once with the remaining arguments. -/
def runInTransaction {σ α β ε : Type} (fn : σ → α → Except ε (β × σ))
    (dbState : σ) (args : α) : Except ε β × σ :=
  wrapInTransaction fn dbState args

/-- The hook request's custom-properties bag: `request.custom.affectedIds`
holds, once set, the stored affected-ids computation (the promise is
modelled by its settled outcome). -/
structure HookRequest where
  affectedIds : Option (Except String (List Nat))
deriving Repr

/-- Translated from `getCurrentRequestAffectedIds`: if
`request.custom.affectedIds` is unset, invoke the underlying resolution and
store it there; either way return what the bag holds.  The returned flag
records whether the underlying `sbvrUtils.getAffectedIds` was invoked. -/
def getCurrentRequestAffectedIds (resolve : Except String (List Nat))
    (req : HookRequest) : Except String (List Nat) × HookRequest × Bool :=
  match req.affectedIds with
  | some cached => (cached, req, false)
  | none => (resolve, { affectedIds := some resolve }, true)

/-- Call `getCurrentRequestAffectedIds` `n` times in sequence on one
request, collecting the returned results, the final request state and how
often the underlying resolution was invoked. -/
def runAffectedIdsCalls (resolve : Except String (List Nat)) :
    HookRequest → Nat → List (Except String (List Nat)) × HookRequest × Nat
  | req, 0 => ([], req, 0)
  | req, n + 1 =>
      let step := getCurrentRequestAffectedIds resolve req
      let rest := runAffectedIdsCalls resolve step.2.1 n
      (step.1 :: rest.1, rest.2.1, (if step.2.2 then 1 else 0) + rest.2.2)

/-- An observable event of the cascading-delete pre-run hook: a dependent
delete call issued against the store, or a report to the exception-capture
sink (`captureException`) with its message and whether the request context
was attached. -/
inductive DepEvent where
  | del (resource : String) (idField : String) (ids : List Nat)
  | capture (msg : String) (hasReq : Bool)
deriving Repr, DecidableEq

/-- A declared dependent: `[dependent, resourceIdField, subDependent?]`
where the optional sub-dependent is `[subResource, subIdField]`. -/
abbrev DepSpec := String × String × Option (String × String)

/-- The outcome of each delete call against the store, as decided by the
external store: success or a thrown error, as a function of the call's
resource, filter field and id set. -/
abbrev DeleteEnv := String → String → List Nat → Except String Unit

/-- The `captureException` message for a failing dependent delete, exactly
as interpolated in the source (note it names both the dependent and the
primary resource). -/
def dependentCaptureMsg (dependent resource : String) : String :=
  "Error deleting resource '" ++ dependent ++ "' before deleting '" ++ resource ++ "' "

/-- The `captureException` message for a failing sub-dependent delete,
exactly as concatenated in the source (it names only the sub-dependent). -/
def subDependentCaptureMsg (depResource : String) : String :=
  "Error deleting " ++ depResource

/-- Translated from the `Promise.mapSeries` body of
`addDeleteHookForDependents`: iterate the dependents strictly sequentially;
delete each dependent by `resourceIdField $in ids`; on failure capture (with
the dependent/primary message and the request) and re-raise, aborting the
iteration; on success delete the declared sub-dependent the same way, its
failure captured with the sub-dependent message. -/
def deleteDependents (env : DeleteEnv) (resource : String) (ids : List Nat) :
    List DepSpec → Except String Unit × List DepEvent
  | [] => (Except.ok (), [])
  | (dependent, resourceIdField, subDependent) :: rest =>
    match env dependent resourceIdField ids with
    | Except.error e =>
        (Except.error e,
         [DepEvent.del dependent resourceIdField ids,
          DepEvent.capture (dependentCaptureMsg dependent resource) true])
    | Except.ok _ =>
      match subDependent with
      | none =>
          let r := deleteDependents env resource ids rest
          (r.1, DepEvent.del dependent resourceIdField ids :: r.2)
      | some sub =>
        match env sub.1 sub.2 ids with
        | Except.error e =>
            (Except.error e,
             [DepEvent.del dependent resourceIdField ids,
              DepEvent.del sub.1 sub.2 ids,
              DepEvent.capture (subDependentCaptureMsg sub.1) true])
        | Except.ok _ =>
            let r := deleteDependents env resource ids rest
            (r.1,
             DepEvent.del dependent resourceIdField ids ::
               DepEvent.del sub.1 sub.2 ids :: r.2)

/-- Translated from the PRERUN handler of `addDeleteHookForDependents`:
resolve the affected ids (through the per-request memoization); a failed
resolution propagates; an empty id set succeeds immediately; otherwise run
the sequential dependent deletes. -/
def preRunDeleteHook (env : DeleteEnv) (resource : String) (dependents : List DepSpec)
    (resolvedIds : Except String (List Nat)) : Except String Unit × List DepEvent :=
  match resolvedIds with
  | Except.error e => (Except.error e, [])
  | Except.ok resourceIds =>
      if resourceIds.length = 0 then (Except.ok (), [])
      else deleteDependents env resource resourceIds dependents

/-- The delete calls the hook would issue for an id set, in the declared
order: each dependent followed by its declared sub-dependent. -/
def declaredDeletes (ids : List Nat) : List DepSpec → List DepEvent
  | [] => []
  | (dependent, resourceIdField, subDependent) :: rest =>
      DepEvent.del dependent resourceIdField ids ::
        (match subDependent with
         | none => declaredDeletes ids rest
         | some sub => DepEvent.del sub.1 sub.2 ids :: declaredDeletes ids rest)

/-- Whether an event is a delete call. -/
def DepEvent.isDel : DepEvent → Bool
  | DepEvent.del .. => true
  | DepEvent.capture .. => false

/-- The delete calls of a trace, in order. -/
def delEventsOf (evs : List DepEvent) : List DepEvent := evs.filter DepEvent.isDel

/-- Whether the first character list starts with the second. -/
def charsStart : List Char → List Char → Bool
  | _, [] => true
  | [], _ :: _ => false
  | c :: cs, p :: ps => c == p && charsStart cs ps

/-- Whether the first character list contains the second as a contiguous
run. -/
def charsContain : List Char → List Char → Bool
  | [], pat => pat.isEmpty
  | c :: cs, pat => charsStart (c :: cs) pat || charsContain cs pat

/-- Whether the string `s` contains `pat` as a substring. -/
def strHasSub (s pat : String) : Bool := charsContain s.toList pat.toList

/-- A store environment in which every dependent delete succeeds. -/
def envAllOk : DeleteEnv := fun _ _ _ => Except.ok ()

/-- A store environment in which exactly the delete of `image_install`
(a sub-dependent in the test layout) throws. -/
def envFailingSubDependent : DeleteEnv :=
  fun resource _ _ =>
    if resource == "image_install" then Except.error "boom" else Except.ok ()

/-- A store environment in which exactly the delete of
`device_config_variable` (a first-level dependent) throws. -/
def envFailingDependent : DeleteEnv :=
  fun resource _ _ =>
    if resource == "device_config_variable" then Except.error "nope" else Except.ok ()

/-- The dependent layout of the spec's cascade test: `device` has a plain
dependent and a dependent with a sub-dependent. -/
def deviceDeps : List DepSpec :=
  [("device_config_variable", "device_id", none),
   ("device_environment_variable", "device_id", some ("image_install", "device_id"))]

/-- A sample transactional operation that resolves (used to exercise the
transaction wrapper at a concrete input). -/
def txOpOk : Nat → Nat → Except String (Nat × Nat) :=
  fun tx a => Except.ok (tx + a, tx + a)

/-- A sample transactional operation that rejects after conceptually writing
(used to exercise rollback at a concrete input). -/
def txOpFail : Nat → Nat → Except String (Nat × Nat) :=
  fun _ _ => Except.error "fail"

/-- An empty store (next generated id 1). -/
def storeEmpty : Store := ⟨[], 1⟩

/-- A store holding exactly one row, with id 7. -/
def storeOne : Store := ⟨[⟨7, [("x", Value.num 0)]⟩], 8⟩

/-- A store holding two rows, with ids 3 and 4. -/
def storeTwo : Store := ⟨[⟨3, []⟩, ⟨4, []⟩], 5⟩

/-- A heap holding one caller object, a filter, at address 0. -/
def heapApp : ObjHeap := ⟨[[("app", Value.num 7)]]⟩

/-- A heap holding one caller object, the empty filter, at address 0. -/
def heapNilFilter : ObjHeap := ⟨[[]]⟩

/-- Sample update fields. -/
def updB : Obj := [("b", Value.num 2)]

/-- A sample body for `_getOrInsertId`. -/
def bodyN : Obj := [("name", Value.str "n")]

/-! Helper lemmas. -/

theorem cloneDeep_eq_aux :
    ∀ n : Nat, (∀ v : Value, sizeOf v ≤ n → cloneDeepVal v = v) ∧
      (∀ fs : Obj, sizeOf fs ≤ n → cloneDeepFields fs = fs) := by
  intro n
  induction n with
  | zero =>
    constructor
    · intro v h
      cases v <;> simp at h
    · intro fs h
      cases fs with
      | nil => simp [cloneDeepFields]
      | cons p rest => simp at h
  | succ n ih =>
    constructor
    · intro v h
      cases v with
      | num m => simp [cloneDeepVal]
      | str s => simp [cloneDeepVal]
      | obj fs =>
        rw [cloneDeepVal]
        have hfs : sizeOf fs ≤ n := by simp at h; omega
        rw [ih.2 fs hfs]
    · intro fs h
      cases fs with
      | nil => simp [cloneDeepFields]
      | cons p rest =>
        rw [cloneDeepFields]
        obtain ⟨k, v⟩ := p
        have h1 : sizeOf v ≤ n := by simp at h; omega
        have h2 : sizeOf rest ≤ n := by simp at h; omega
        rw [ih.1 v h1, ih.2 rest h2]

theorem cloneDeepFields_eq (fs : Obj) : cloneDeepFields fs = fs :=
  (cloneDeep_eq_aux (sizeOf fs)).2 fs (Nat.le_refl _)

theorem ObjHeap.get_alloc_self (h : ObjHeap) (o : Obj) :
    (h.alloc o).1.get (h.alloc o).2 = o := by
  simp [ObjHeap.alloc, ObjHeap.get, List.getD_eq_getElem?_getD,
    List.getElem?_append_right]

theorem ObjHeap.get_alloc_lt (h : ObjHeap) (o : Obj) (a : Nat)
    (ha : a < h.objs.length) : (h.alloc o).1.get a = h.get a := by
  simp [ObjHeap.alloc, ObjHeap.get, List.getD_eq_getElem?_getD,
    List.getElem?_append_left ha]

theorem ObjHeap.get_setObj_self (h : ObjHeap) (o : Obj) (a : Nat)
    (ha : a < h.objs.length) : (h.setObj a o).get a = o := by
  simp [ObjHeap.setObj, ObjHeap.get, List.getD_eq_getElem?_getD,
    List.getElem?_set_eq_of_lt _ ha]

theorem ObjHeap.get_setObj_ne (h : ObjHeap) (o : Obj) (a b : Nat)
    (hne : b ≠ a) : (h.setObj a o).get b = h.get b := by
  simp [ObjHeap.setObj, ObjHeap.get, List.getD_eq_getElem?_getD,
    List.getElem?_set_ne (Ne.symm hne)]

theorem lookupField_setField_self (d : Obj) (k : String) (v : Value) :
    lookupField (setField d k v) k = some v := by
  induction d with
  | nil => simp [setField, lookupField]
  | cons p rest ih =>
    obtain ⟨k', v'⟩ := p
    by_cases hk : k' = k
    · simp [setField, hk, lookupField]
    · simp [setField, hk, lookupField, ih]

theorem lookupField_setField_ne (d : Obj) (k k' : String) (v : Value)
    (hne : k' ≠ k) : lookupField (setField d k' v) k = lookupField d k := by
  induction d with
  | nil => simp [setField, lookupField, hne]
  | cons p rest ih =>
    obtain ⟨k'', v''⟩ := p
    by_cases hk : k'' = k'
    · subst hk
      simp [setField, lookupField, hne]
    · simp [setField, hk, lookupField]
      by_cases hk2 : k'' = k
      · simp [hk2]
      · simp [hk2, ih]

theorem hasField_setField (d : Obj) (k k' : String) (v : Value)
    (h : hasField d k = true) : hasField (setField d k' v) k = true := by
  by_cases hk : k' = k
  · subst hk
    simp [hasField, lookupField_setField_self]
  · simpa [hasField, lookupField_setField_ne d k k' v hk] using h

theorem hasField_assignFields (b : Obj) : ∀ d : Obj, ∀ k : String,
    hasField d k = true → hasField (assignFields d b) k = true := by
  induction b with
  | nil => intro d k h; simpa [assignFields] using h
  | cons p rest ih =>
    intro d k h
    simpa [assignFields] using ih (setField d p.1 p.2) k (hasField_setField d k p.1 p.2 h)

theorem mergeVal_nonObj (d v : Value) (h : v.isObj = false) : mergeVal d v = v := by
  cases d <;> cases v <;> simp [Value.isObj] at h ⊢ <;> simp [mergeVal]

theorem mergeFields_lookup_of_notin (s : Obj) : ∀ d : Obj, ∀ k : String,
    (∀ p ∈ s, p.1 ≠ k) → lookupField (mergeFields d s) k = lookupField d k := by
  induction s with
  | nil => intro d k _; simp [mergeFields]
  | cons p rest ih =>
    intro d k hk
    obtain ⟨k', sv⟩ := p
    have hk' : k' ≠ k := hk (k', sv) (List.mem_cons_self _ _)
    rw [mergeFields]
    cases hd : lookupField d k' with
    | some dv =>
      simp only [hd]
      rw [ih _ k (fun p hp => hk p (List.mem_cons_of_mem _ hp))]
      exact lookupField_setField_ne d k k' _ hk'
    | none =>
      simp only [hd]
      rw [ih _ k (fun p hp => hk p (List.mem_cons_of_mem _ hp))]
      exact lookupField_setField_ne d k k' _ hk'

theorem mergeFields_win (s : Obj) : ∀ d : Obj, ∀ k : String, ∀ v : Value,
    noDupKeys s = true → lookupField s k = some v → v.isObj = false →
    lookupField (mergeFields d s) k = some v := by
  induction s with
  | nil => intro d k v _ h _; simp [lookupField] at h
  | cons p rest ih =>
    intro d k v hnd hv hobj
    obtain ⟨k', sv⟩ := p
    have hnd1 : rest.any (fun p => p.1 == k') = false := by
      simp [noDupKeys, Bool.and_eq_true] at hnd
      simpa using hnd.1
    have hnd2 : noDupKeys rest = true := by
      simp [noDupKeys, Bool.and_eq_true] at hnd
      exact hnd.2
    by_cases hk : k' = k
    · subst hk
      have hsv : sv = v := by simpa [lookupField] using hv
      subst hsv
      have hnotin : ∀ p ∈ rest, p.1 ≠ k' := by
        intro p hp
        have := List.any_eq_false.mp hnd1 p hp
        simpa using this
      rw [mergeFields]
      cases hd : lookupField d k' with
      | some dv =>
        simp only [hd]
        rw [mergeFields_lookup_of_notin rest _ k' hnotin]
        rw [lookupField_setField_self]
        rw [mergeVal_nonObj dv sv hobj]
      | none =>
        simp only [hd]
        rw [mergeFields_lookup_of_notin rest _ k' hnotin]
        exact lookupField_setField_self d k' sv
    · have hv' : lookupField rest k = some v := by
        simpa [lookupField, hk] using hv
      rw [mergeFields]
      cases hd : lookupField d k' with
      | some dv =>
        simp only [hd]
        exact ih _ k v hnd2 hv' hobj
      | none =>
        simp only [hd]
        exact ih _ k v hnd2 hv' hobj

theorem runAffectedIdsCalls_cached (resolve v : Except String (List Nat))
    (req : HookRequest) (hc : req.affectedIds = some v) : ∀ n : Nat,
    runAffectedIdsCalls resolve req n = (List.replicate n v, req, 0) := by
  intro n
  induction n with
  | zero => simp [runAffectedIdsCalls, List.replicate]
  | succ n ih =>
    rw [runAffectedIdsCalls]
    simp [getCurrentRequestAffectedIds, hc, ih, List.replicate]

theorem runAffectedIdsCalls_fresh (resolve : Except String (List Nat)) (n : Nat) :
    runAffectedIdsCalls resolve ⟨none⟩ (n + 1) =
      (List.replicate (n + 1) resolve, ⟨some resolve⟩, 1) := by
  rw [runAffectedIdsCalls]
  simp only [getCurrentRequestAffectedIds]
  rw [runAffectedIdsCalls_cached resolve resolve ⟨some resolve⟩ rfl n]
  simp [List.replicate]

theorem deleteDependents_spec (env : DeleteEnv) (resource : String) (ids : List Nat) :
    ∀ deps : List DepSpec,
    (∃ t, delEventsOf (deleteDependents env resource ids deps).2 ++ t =
        declaredDeletes ids deps) ∧
    ((deleteDependents env resource ids deps).1 = Except.ok () →
      (deleteDependents env resource ids deps).2 = declaredDeletes ids deps) ∧
    (∀ e, (deleteDependents env resource ids deps).1 = Except.error e →
      ∃ p d f, env d f ids = Except.error e ∧
        ((∃ sub, (d, f, sub) ∈ deps ∧
            (deleteDependents env resource ids deps).2 =
              p ++ [DepEvent.del d f ids,
                    DepEvent.capture (dependentCaptureMsg d resource) true]) ∨
         (∃ parent pf, (parent, pf, some (d, f)) ∈ deps ∧
            env parent pf ids = Except.ok () ∧
            (deleteDependents env resource ids deps).2 =
              p ++ [DepEvent.del parent pf ids, DepEvent.del d f ids,
                    DepEvent.capture (subDependentCaptureMsg d) true]))) := by
  intro deps
  induction deps with
  | nil =>
    refine ⟨⟨[], by simp [deleteDependents, delEventsOf, declaredDeletes]⟩, ?_, ?_⟩
    · intro _; simp [deleteDependents, declaredDeletes]
    · intro e he; simp [deleteDependents] at he
  | cons spec rest ih =>
    obtain ⟨dependent, resourceIdField, subDependent⟩ := spec
    obtain ⟨⟨t0, ht0⟩, hok, herr⟩ := ih
    cases hdep : env dependent resourceIdField ids with
    | error e =>
      refine ⟨?_, ?_, ?_⟩
      · refine ⟨(match subDependent with
          | none => declaredDeletes ids rest
          | some sub => DepEvent.del sub.1 sub.2 ids :: declaredDeletes ids rest), ?_⟩
        cases subDependent <;>
          simp [deleteDependents, hdep, delEventsOf, DepEvent.isDel, declaredDeletes]
      · intro hcontra
        simp [deleteDependents, hdep] at hcontra
      · intro e' he'
        simp only [deleteDependents, hdep] at he' ⊢
        have he : e' = e := by
          simpa [Except.error.injEq] using he'.symm
        subst he
        exact ⟨[], dependent, resourceIdField, hdep,
          Or.inl ⟨subDependent, List.mem_cons_self _ _, by simp⟩⟩
    | ok u =>
      cases subDependent with
      | none =>
        refine ⟨?_, ?_, ?_⟩
        · refine ⟨t0, ?_⟩
          simp only [deleteDependents, hdep, delEventsOf, List.filter, DepEvent.isDel,
            declaredDeletes]
          simpa [delEventsOf] using ht0
        · intro hk
          simp only [deleteDependents, hdep] at hk ⊢
          rw [declaredDeletes]
          simp [hok hk]
        · intro e' he'
          simp only [deleteDependents, hdep] at he' ⊢
          obtain ⟨p, d, f, henv, hcase⟩ := herr e' he'
          refine ⟨DepEvent.del dependent resourceIdField ids :: p, d, f, henv, ?_⟩
          rcases hcase with ⟨sub', hmem, htr⟩ | ⟨parent, pf, hmem, hok2, htr⟩
          · exact Or.inl ⟨sub', List.mem_cons_of_mem _ hmem, by simp [htr]⟩
          · exact Or.inr ⟨parent, pf, List.mem_cons_of_mem _ hmem, hok2, by simp [htr]⟩
      | some sub =>
        cases hsub : env sub.1 sub.2 ids with
        | error e =>
          refine ⟨?_, ?_, ?_⟩
          · refine ⟨declaredDeletes ids rest, ?_⟩
            simp [deleteDependents, hdep, hsub, delEventsOf, DepEvent.isDel,
              declaredDeletes]
          · intro hcontra
            simp [deleteDependents, hdep, hsub] at hcontra
          · intro e' he'
            simp only [deleteDependents, hdep, hsub] at he' ⊢
            have he : e' = e := by
              simpa [Except.error.injEq] using he'.symm
            subst he
            exact ⟨[], sub.1, sub.2, hsub,
              Or.inr ⟨dependent, resourceIdField, List.mem_cons_self _ _, hdep,
                by simp⟩⟩
        | ok u' =>
          refine ⟨?_, ?_, ?_⟩
          · refine ⟨t0, ?_⟩
            simp only [deleteDependents, hdep, hsub, delEventsOf, List.filter,
              DepEvent.isDel, declaredDeletes]
            simpa [delEventsOf] using ht0
          · intro hk
            simp only [deleteDependents, hdep, hsub] at hk ⊢
            rw [declaredDeletes]
            simp [hok hk]
          · intro e' he'
            simp only [deleteDependents, hdep, hsub] at he' ⊢
            obtain ⟨p, d, f, henv, hcase⟩ := herr e' he'
            refine ⟨DepEvent.del dependent resourceIdField ids ::
              DepEvent.del sub.1 sub.2 ids :: p, d, f, henv, ?_⟩
            rcases hcase with ⟨sub', hmem, htr⟩ | ⟨parent, pf, hmem, hok2, htr⟩
            · exact Or.inl ⟨sub', List.mem_cons_of_mem _ hmem, by simp [htr]⟩
            · exact Or.inr ⟨parent, pf, List.mem_cons_of_mem _ hmem, hok2,
                by simp [htr]⟩

/-! Claim theorems. -/

/-- C5: for every operation wrapped by `wrapInTransaction`, if the operation
resolves the transaction commits and the wrapped call returns the
operation's result (its final state becomes visible); if the operation
rejects, the transaction rolls back — the state afterward is exactly the
initial state, so no write performed inside is visible — and the original
error is propagated unchanged. -/
theorem wrapInTransaction_commit_or_rollback {σ α β ε : Type}
    (fn : σ → α → Except ε (β × σ)) (s : σ) (args : α) :
    (∀ b s', fn s args = Except.ok (b, s') →
      wrapInTransaction fn s args = (Except.ok b, s')) ∧
    (∀ e, fn s args = Except.error e →
      wrapInTransaction fn s args = (Except.error e, s)) := by
  constructor
  · intro b s' hfn
    simp [wrapInTransaction, dbTransaction, hfn]
  · intro e hfn
    simp [wrapInTransaction, dbTransaction, hfn]

/-- Witness for C5: the commit and rollback cases at concrete operations. -/
theorem wrapInTransaction_commit_or_rollback_witness :
    wrapInTransaction txOpOk 1 2 = (Except.ok 3, 3) ∧
    wrapInTransaction txOpFail 1 2 = (Except.error "fail", 1) :=
  ⟨(wrapInTransaction_commit_or_rollback txOpOk 1 2).1 3 3 rfl,
   (wrapInTransaction_commit_or_rollback txOpFail 1 2).2 "fail" rfl⟩

/-- C8: `runInTransaction fn dbState args` is observably equivalent to
calling the function produced by `wrapInTransaction fn` once with `args`:
the same result or error and the same final state. -/
theorem runInTransaction_is_wrap_then_call {σ α β ε : Type}
    (fn : σ → α → Except ε (β × σ)) (dbState : σ) (args : α) :
    runInTransaction fn dbState args = wrapInTransaction fn dbState args := rfl

/-- C6: within one request the affected-ids resolution is invoked at most
once no matter how many times `getCurrentRequestAffectedIds` is called; on a
fresh request every one of the n calls returns the identical stored result
and the computation ends up stored on the request. -/
theorem affectedIds_memoized (resolve : Except String (List Nat))
    (req : HookRequest) (n : Nat) :
    (runAffectedIdsCalls resolve req n).2.2 ≤ 1 ∧
    (req.affectedIds = none →
      (runAffectedIdsCalls resolve req n).1 = List.replicate n resolve ∧
      (1 ≤ n →
        (runAffectedIdsCalls resolve req n).2.1.affectedIds = some resolve)) := by
  obtain ⟨aff⟩ := req
  cases aff with
  | some v =>
    rw [runAffectedIdsCalls_cached resolve v ⟨some v⟩ rfl n]
    exact ⟨by simp, fun hnone => by simp at hnone⟩
  | none =>
    cases n with
    | zero =>
      simp [runAffectedIdsCalls]
    | succ n =>
      rw [runAffectedIdsCalls_fresh]
      exact ⟨by simp, fun _ => ⟨rfl, fun _ => rfl⟩⟩

/-- Witness for C6: three calls on a fresh request invoke the resolution
once and all return the resolved value, which ends up stored. -/
theorem affectedIds_memoized_witness :
    (runAffectedIdsCalls (Except.ok [5]) ⟨none⟩ 3).2.2 ≤ 1 ∧
    (runAffectedIdsCalls (Except.ok [5]) ⟨none⟩ 3).1 =
      List.replicate 3 (Except.ok [5]) ∧
    (runAffectedIdsCalls (Except.ok [5]) ⟨none⟩ 3).2.1.affectedIds =
      some (Except.ok [5]) :=
  ⟨(affectedIds_memoized (Except.ok [5]) ⟨none⟩ 3).1,
   ((affectedIds_memoized (Except.ok [5]) ⟨none⟩ 3).2 rfl).1,
   ((affectedIds_memoized (Except.ok [5]) ⟨none⟩ 3).2 rfl).2 (by norm_num)⟩

/-- C10: when the first affected-ids resolution of a request fails, the
failed computation stays cached on the request: every one of the n + 1 calls
returns that same failure, the failure ends up stored, and the resolution is
invoked exactly once (never retried). -/
theorem affectedIds_failure_cached (e : String) (n : Nat) :
    (runAffectedIdsCalls (Except.error e) ⟨none⟩ (n + 1)).1 =
      List.replicate (n + 1) (Except.error e) ∧
    (runAffectedIdsCalls (Except.error e) ⟨none⟩ (n + 1)).2.1.affectedIds =
      some (Except.error e) ∧
    (runAffectedIdsCalls (Except.error e) ⟨none⟩ (n + 1)).2.2 = 1 := by
  rw [runAffectedIdsCalls_fresh]
  exact ⟨rfl, rfl, rfl⟩

/-- C7: when the affected-id set resolved for the in-flight delete is empty,
the cascading-delete pre-run hook succeeds immediately and issues no delete
call for any dependent or sub-dependent resource. -/
theorem cascadeDelete_empty_noop (env : DeleteEnv) (resource : String)
    (dependents : List DepSpec) :
    preRunDeleteHook env resource dependents (Except.ok []) =
      (Except.ok (), []) := rfl

/-- C1 (amended): for every registered primary resource, declared dependent
list and non-empty affected-id set, the pre-run hook issues the dependent
and sub-dependent deletes in exactly the declared order, strictly
sequentially (the issued deletes always form an initial segment of the
declared order, and a sub-dependent delete is issued only after its parent
dependent's delete succeeded); if every delete succeeds the trace is exactly
the declared list and the hook succeeds; on the first failing delete the
error is reported once to the exception-capture sink with the request
context and then re-raised unchanged, aborting all remaining deletes — and
the report's content is tied to the failing delete's role: when the failing
delete is one declared as a dependent the message names the dependent and
the primary resource, while when it is one declared as a sub-dependent (its
delete issued right after its parent dependent's delete succeeded) the
message names only the sub-dependent resource. -/
theorem cascadeDelete_order_report_abort (env : DeleteEnv) (resource : String)
    (dependents : List DepSpec) (ids : List Nat) (hids : ids ≠ []) :
    (∃ t, delEventsOf (preRunDeleteHook env resource dependents (Except.ok ids)).2 ++ t =
        declaredDeletes ids dependents) ∧
    ((preRunDeleteHook env resource dependents (Except.ok ids)).1 = Except.ok () →
      (preRunDeleteHook env resource dependents (Except.ok ids)).2 =
        declaredDeletes ids dependents) ∧
    (∀ e, (preRunDeleteHook env resource dependents (Except.ok ids)).1 = Except.error e →
      ∃ p d f, env d f ids = Except.error e ∧
        ((∃ sub, (d, f, sub) ∈ dependents ∧
            (preRunDeleteHook env resource dependents (Except.ok ids)).2 =
              p ++ [DepEvent.del d f ids,
                    DepEvent.capture (dependentCaptureMsg d resource) true]) ∨
         (∃ parent pf, (parent, pf, some (d, f)) ∈ dependents ∧
            env parent pf ids = Except.ok () ∧
            (preRunDeleteHook env resource dependents (Except.ok ids)).2 =
              p ++ [DepEvent.del parent pf ids, DepEvent.del d f ids,
                    DepEvent.capture (subDependentCaptureMsg d) true]))) := by
  have hlen : ¬(ids.length = 0) := by
    simpa [List.length_eq_zero] using hids
  simp only [preRunDeleteHook, if_neg hlen]
  exact deleteDependents_spec env resource ids dependents

/-- Witness for C1: the cascade at the spec's device layout, once with every
delete succeeding, and once with the first dependent delete failing — the
failure branch then reports the failing delete with its role-specific
message. -/
theorem cascadeDelete_order_report_abort_witness :
    ((preRunDeleteHook envAllOk "device" deviceDeps (Except.ok [5])).1 = Except.ok () →
      (preRunDeleteHook envAllOk "device" deviceDeps (Except.ok [5])).2 =
        declaredDeletes [5] deviceDeps) ∧
    (∃ t, delEventsOf
        (preRunDeleteHook envFailingDependent "device" deviceDeps (Except.ok [5])).2 ++ t =
      declaredDeletes [5] deviceDeps) ∧
    (∃ p d f, envFailingDependent d f [5] = Except.error "nope" ∧
      ((∃ sub, (d, f, sub) ∈ deviceDeps ∧
          (preRunDeleteHook envFailingDependent "device" deviceDeps (Except.ok [5])).2 =
            p ++ [DepEvent.del d f [5],
                  DepEvent.capture (dependentCaptureMsg d "device") true]) ∨
       (∃ parent pf, (parent, pf, some (d, f)) ∈ deviceDeps ∧
          envFailingDependent parent pf [5] = Except.ok () ∧
          (preRunDeleteHook envFailingDependent "device" deviceDeps (Except.ok [5])).2 =
            p ++ [DepEvent.del parent pf [5], DepEvent.del d f [5],
                  DepEvent.capture (subDependentCaptureMsg d) true]))) :=
  ⟨(cascadeDelete_order_report_abort envAllOk "device" deviceDeps [5]
      (by decide)).2.1,
   (cascadeDelete_order_report_abort envFailingDependent "device" deviceDeps [5]
      (by decide)).1,
   (cascadeDelete_order_report_abort envFailingDependent "device" deviceDeps [5]
      (by decide)).2.2 "nope" rfl⟩

/-- Counterexample to C1 as stated: in the spec's device layout, when the
first failing delete is the sub-dependent `image_install` delete, the error
is captured and re-raised, but the capture message is exactly
`Error deleting image_install` — it does not contain the parent dependent's
name nor the primary resource's name, so the report does not carry the
parent resource name the claim promises. -/
theorem cascadeDelete_subDependent_report_lacks_parent :
    (preRunDeleteHook envFailingSubDependent "device" deviceDeps (Except.ok [5])).1 =
      Except.error "boom" ∧
    (preRunDeleteHook envFailingSubDependent "device" deviceDeps (Except.ok [5])).2 =
      [DepEvent.del "device_config_variable" "device_id" [5],
       DepEvent.del "device_environment_variable" "device_id" [5],
       DepEvent.del "image_install" "device_id" [5],
       DepEvent.capture "Error deleting image_install" true] ∧
    strHasSub "Error deleting image_install" "device_environment_variable" = false ∧
    strHasSub "Error deleting image_install" "device" = false :=
  ⟨rfl, rfl, rfl, rfl⟩

/-- C2: for every store, filter and updateFields — zero matches: exactly one
new row is inserted, equal to the filter deep-merged with updateFields, and
the new row's generated id is returned; exactly one match: only that row is
patched with updateFields (one patch write, every other row untouched) and
an object with that row's id is returned; moreover in the deep merge the
updateFields win on overlapping keys. -/
theorem updateOrInsert_zero_or_one_match (s : Store) (h : ObjHeap)
    (resource : String) (filterAddr : Nat) (updateFields : Obj) :
    (getIds s (h.get filterAddr) = [] →
      (_updateOrInsert s h resource filterAddr updateFields).1 = Except.ok s.nextId ∧
      (_updateOrInsert s h resource filterAddr updateFields).2.1.rows =
        s.rows ++ [⟨s.nextId, mergeFields (h.get filterAddr) updateFields⟩] ∧
      (_updateOrInsert s h resource filterAddr updateFields).2.2.2 =
        [WriteOp.post (mergeFields (h.get filterAddr) updateFields)]) ∧
    (∀ i, getIds s (h.get filterAddr) = [i] →
      _updateOrInsert s h resource filterAddr updateFields =
        (Except.ok i, s.patchRow i updateFields, h, [WriteOp.patch i updateFields]) ∧
      ∀ r ∈ s.rows, r.id ≠ i →
        r ∈ (_updateOrInsert s h resource filterAddr updateFields).2.1.rows) ∧
    (noDupKeys updateFields = true → ∀ k v, lookupField updateFields k = some v →
      v.isObj = false →
      lookupField (mergeFields (h.get filterAddr) updateFields) k = some v) := by
  have hbody : ((h.alloc (cloneDeepFields (h.get filterAddr))).1.setObj
      (h.alloc (cloneDeepFields (h.get filterAddr))).2
      (mergeFields ((h.alloc (cloneDeepFields (h.get filterAddr))).1.get
        (h.alloc (cloneDeepFields (h.get filterAddr))).2) updateFields)).get
      (h.alloc (cloneDeepFields (h.get filterAddr))).2 =
      mergeFields (h.get filterAddr) updateFields := by
    rw [ObjHeap.get_alloc_self, cloneDeepFields_eq]
    exact ObjHeap.get_setObj_self _ _ _ (by simp [ObjHeap.alloc])
  refine ⟨?_, ?_, ?_⟩
  · intro hz
    refine ⟨?_, ?_, ?_⟩
    · simp [_updateOrInsert, hz, Store.post]
    · simp only [_updateOrInsert, hz, Store.post]
      rw [hbody]
    · simp only [_updateOrInsert, hz]
      rw [hbody]
  · intro i hone
    constructor
    · simp only [_updateOrInsert, hone]
    · intro r hr hne
      simp only [_updateOrInsert, hone, Store.patchRow]
      exact List.mem_map.mpr ⟨r, hr, by simp [hne]⟩
  · intro hnd k v hv hobj
    exact mergeFields_win updateFields (h.get filterAddr) k v hnd hv hobj

/-- Witness for C2: a zero-match call on an empty store inserts the merged
row and returns the fresh id, a one-match call patches row 7 and returns it,
and the merge lets the update field win. -/
theorem updateOrInsert_zero_or_one_match_witness :
    (_updateOrInsert storeEmpty heapApp "application" 0 updB).1 =
      Except.ok storeEmpty.nextId ∧
    (_updateOrInsert storeEmpty heapApp "application" 0 updB).2.1.rows =
      storeEmpty.rows ++ [⟨storeEmpty.nextId, mergeFields (heapApp.get 0) updB⟩] ∧
    _updateOrInsert storeOne heapNilFilter "application" 0 updB =
      (Except.ok 7, storeOne.patchRow 7 updB, heapNilFilter,
       [WriteOp.patch 7 updB]) ∧
    lookupField (mergeFields (heapApp.get 0) updB) "b" = some (Value.num 2) :=
  ⟨((updateOrInsert_zero_or_one_match storeEmpty heapApp "application" 0 updB).1 rfl).1,
   ((updateOrInsert_zero_or_one_match storeEmpty heapApp "application" 0 updB).1 rfl).2.1,
   ((updateOrInsert_zero_or_one_match storeOne heapNilFilter "application" 0 updB).2.1
      7 rfl).1,
   (updateOrInsert_zero_or_one_match storeEmpty heapApp "application" 0 updB).2.2
      rfl "b" (Value.num 2) rfl rfl⟩

/-- C3: for every store, filter and updateFields, a filter matching more
than one row makes `_updateOrInsert` fail with the non-unique-filter error
naming the resource and the stringified filter, leaving the store, the heap
and the write trace untouched; and in every case at most one write
operation is performed. -/
theorem updateOrInsert_nonUnique_no_mutation (s : Store) (h : ObjHeap)
    (resource : String) (filterAddr : Nat) (updateFields : Obj) :
    (∀ i j rest, getIds s (h.get filterAddr) = i :: j :: rest →
      _updateOrInsert s h resource filterAddr updateFields =
        (Except.error (nonUniqueMsg resource (h.get filterAddr)), s, h, [])) ∧
    (_updateOrInsert s h resource filterAddr updateFields).2.2.2.length ≤ 1 := by
  constructor
  · intro i j rest hmany
    simp only [_updateOrInsert, hmany]
  · cases hg : getIds s (h.get filterAddr) with
    | nil => simp [_updateOrInsert, hg]
    | cons a tl =>
      cases tl with
      | nil => simp [_updateOrInsert, hg]
      | cons b tl2 => simp [_updateOrInsert, hg]

/-- Witness for C3: a two-match call errors with the non-unique message and
performs no write. -/
theorem updateOrInsert_nonUnique_no_mutation_witness :
    _updateOrInsert storeTwo heapNilFilter "application" 0 updB =
      (Except.error (nonUniqueMsg "application" (heapNilFilter.get 0)),
       storeTwo, heapNilFilter, []) ∧
    (_updateOrInsert storeTwo heapNilFilter "application" 0 updB).2.2.2.length ≤ 1 :=
  ⟨(updateOrInsert_nonUnique_no_mutation storeTwo heapNilFilter "application" 0 updB).1
      3 4 [] rfl,
   (updateOrInsert_nonUnique_no_mutation storeTwo heapNilFilter "application" 0 updB).2⟩

/-- C9: `_updateOrInsert` never mutates the caller's filter object: the
insert body of the zero-match branch is a fresh deep clone, merged in place,
so after the call (in every branch) the heap object the caller passed as the
filter is unchanged. -/
theorem updateOrInsert_preserves_filter (s : Store) (h : ObjHeap)
    (resource : String) (filterAddr : Nat) (updateFields : Obj)
    (hlt : filterAddr < h.objs.length) :
    (_updateOrInsert s h resource filterAddr updateFields).2.2.1.get filterAddr =
      h.get filterAddr := by
  cases hg : getIds s (h.get filterAddr) with
  | nil =>
    simp only [_updateOrInsert, hg]
    rw [ObjHeap.get_setObj_ne _ _ _ _ (by simp [ObjHeap.alloc]; omega),
      ObjHeap.get_alloc_lt _ _ _ hlt]
  | cons a tl =>
    cases tl with
    | nil => simp [_updateOrInsert, hg]
    | cons b tl2 => simp [_updateOrInsert, hg]

/-- Witness for C9: after a zero-match call (the branch that clones and
merges) the caller's filter object still reads back unchanged. -/
theorem updateOrInsert_preserves_filter_witness :
    0 < heapApp.objs.length ∧
    (_updateOrInsert storeEmpty heapApp "application" 0 updB).2.2.1.get 0 =
      heapApp.get 0 :=
  ⟨by decide,
   updateOrInsert_preserves_filter storeEmpty heapApp "application" 0 updB (by decide)⟩

/-- C4: `_getOrInsertId` queries by equality on all fields of the body; on
zero matches it inserts exactly the body as a new row and returns the
generated id merged (shallow assign) with the body; on one or more matches
it returns the first result without inserting; and the returned object
always contains an `id` field. -/
theorem getOrInsertId_spec (s : Store) (body : Obj) :
    (getIdObjs s body = [] →
      _getOrInsertId s body =
        (assignFields (assignFields [] [("id", Value.num s.nextId)]) body,
         ⟨s.rows ++ [⟨s.nextId, body⟩], s.nextId + 1⟩,
         [WriteOp.post body])) ∧
    (∀ r rest, getIdObjs s body = r :: rest →
      _getOrInsertId s body = (r, s, [])) ∧
    hasField (_getOrInsertId s body).1 "id" = true := by
  refine ⟨?_, ?_, ?_⟩
  · intro hz
    simp only [_getOrInsertId, hz, Store.post]
  · intro r rest hr
    simp only [_getOrInsertId, hr]
  · cases hq : getIdObjs s body with
    | nil =>
      simp only [_getOrInsertId, hq]
      apply hasField_assignFields
      simp [assignFields, setField, hasField, lookupField]
    | cons r rest =>
      simp only [_getOrInsertId, hq]
      have hrmem : r ∈ getIdObjs s body := by
        rw [hq]; exact List.mem_cons_self _ _
      have hx : ∃ a : Row, (a ∈ s.rows ∧ rowMatches body a = true) ∧
          [("id", Value.num (a.id : Int))] = r := by
        simpa [getIdObjs] using hrmem
      obtain ⟨a, _, ha⟩ := hx
      rw [← ha]
      simp [hasField, lookupField]

/-- Witness for C4: a zero-match call inserts the body and returns the
assigned id object, and a one-match call returns the first id object
without inserting; both returned objects carry `id`. -/
theorem getOrInsertId_spec_witness :
    _getOrInsertId storeEmpty bodyN =
      (assignFields (assignFields [] [("id", Value.num storeEmpty.nextId)]) bodyN,
       ⟨storeEmpty.rows ++ [⟨storeEmpty.nextId, bodyN⟩], storeEmpty.nextId + 1⟩,
       [WriteOp.post bodyN]) ∧
    _getOrInsertId storeOne [] = ([("id", Value.num 7)], storeOne, []) ∧
    hasField (_getOrInsertId storeOne []).1 "id" = true :=
  ⟨(getOrInsertId_spec storeEmpty bodyN).1 rfl,
   (getOrInsertId_spec storeOne []).2.1 [("id", Value.num 7)] [] rfl,
   (getOrInsertId_spec storeOne []).2.2⟩
